import Mathlib

/-!
Shallow embedding of the dotSync synchronization engine (src/dotSync.py)
and proofs about its specified properties.

Byte strings are modelled as `List Nat` (10 = LF, 13 = CR).  The three
`bytes.replace` calls of `_command_main_repo` (lines 264-268) are embedded
as structurally recursive functions that perform the same left-to-right,
non-overlapping replacement.
-/

namespace DotSync

/-- Embeds `local_content_bytes.replace(b"\r\n", b"\n")` (dotSync.py line 266):
left-to-right scan replacing each non-overlapping CRLF pair with LF. -/
def replCRLFtoLF : List Nat → List Nat
  | [] => []
  | [c] => [c]
  | a :: b :: rest =>
    if a = 13 ∧ b = 10 then 10 :: replCRLFtoLF rest
    else a :: replCRLFtoLF (b :: rest)

/-- Embeds `local_content_bytes.replace(b"\n", b"\r\n")` (dotSync.py line 268,
first replace): each LF becomes CRLF. -/
def replLFtoCRLF : List Nat → List Nat
  | [] => []
  | c :: rest => if c = 10 then 13 :: 10 :: replLFtoCRLF rest else c :: replLFtoCRLF rest

/-- Embeds `.replace(b"\r\r", b"\r")` (dotSync.py line 268, second replace):
left-to-right scan replacing each non-overlapping CR-CR pair with CR. -/
def replCRCRtoCR : List Nat → List Nat
  | [] => []
  | [c] => [c]
  | a :: b :: rest =>
    if a = 13 ∧ b = 13 then 13 :: replCRCRtoCR rest
    else a :: replCRCRtoCR (b :: rest)

/-- The three line-ending policies of `_ConfigLineEnding` (dotSync.py lines 74-77). -/
inductive LineEnding
  | noneP
  | lf
  | crlf
deriving DecidableEq, Repr

/-- The line-ending normalization applied to local bytes before a repo-direction
write (dotSync.py lines 264-268): `none` is the identity, `lf` replaces CRLF
with LF, `crlf` replaces LF with CRLF and then collapses CR-CR to CR. -/
def normalize (b : List Nat) : LineEnding → List Nat
  | .noneP => b
  | .lf => replCRLFtoLF b
  | .crlf => replCRCRtoCR (replLFtoCRLF b)

/-- Induction on a list by looking at its first two elements, with induction
hypotheses for both the tail and the tail of the tail. -/
def twoStepInd {α : Type} {P : List α → Prop} (l : List α) (h0 : P [])
    (h1 : ∀ c, P [c])
    (h2 : ∀ a b r, P r → P (b :: r) → P (a :: b :: r)) : P l :=
  match l with
  | [] => h0
  | [c] => h1 c
  | a :: b :: r => h2 a b r (twoStepInd r h0 h1 h2) (twoStepInd (b :: r) h0 h1 h2)

lemma replCRLFtoLF_nil : replCRLFtoLF [] = [] := rfl

lemma replCRLFtoLF_single (c : Nat) : replCRLFtoLF [c] = [c] := rfl

lemma replCRLFtoLF_crlf (r : List Nat) : replCRLFtoLF (13 :: 10 :: r) = 10 :: replCRLFtoLF r := by
  simp [replCRLFtoLF]

lemma replCRLFtoLF_pair (a b : Nat) (r : List Nat) (h : ¬(a = 13 ∧ b = 10)) :
    replCRLFtoLF (a :: b :: r) = a :: replCRLFtoLF (b :: r) := by
  rw [replCRLFtoLF, if_neg h]

lemma replCRLFtoLF_cons_ne13 (a : Nat) (t : List Nat) (h : a ≠ 13) :
    replCRLFtoLF (a :: t) = a :: replCRLFtoLF t := by
  cases t with
  | nil => rfl
  | cons b r => exact replCRLFtoLF_pair a b r (fun hc => h hc.1)

lemma replCRLFtoLF_13_ne10 (b : Nat) (r : List Nat) (h : b ≠ 10) :
    replCRLFtoLF (13 :: b :: r) = 13 :: replCRLFtoLF (b :: r) :=
  replCRLFtoLF_pair 13 b r (fun hc => h hc.2)

lemma replLFtoCRLF_nil : replLFtoCRLF [] = [] := rfl

lemma replLFtoCRLF_lf (t : List Nat) : replLFtoCRLF (10 :: t) = 13 :: 10 :: replLFtoCRLF t := by
  simp [replLFtoCRLF]

lemma replLFtoCRLF_cons_ne10 (c : Nat) (t : List Nat) (h : c ≠ 10) :
    replLFtoCRLF (c :: t) = c :: replLFtoCRLF t := by
  rw [replLFtoCRLF, if_neg h]

lemma replCRCRtoCR_nil : replCRCRtoCR [] = [] := rfl

lemma replCRCRtoCR_single (c : Nat) : replCRCRtoCR [c] = [c] := rfl

lemma replCRCRtoCR_crcr (r : List Nat) : replCRCRtoCR (13 :: 13 :: r) = 13 :: replCRCRtoCR r := by
  simp [replCRCRtoCR]

lemma replCRCRtoCR_pair (a b : Nat) (r : List Nat) (h : ¬(a = 13 ∧ b = 13)) :
    replCRCRtoCR (a :: b :: r) = a :: replCRCRtoCR (b :: r) := by
  rw [replCRCRtoCR, if_neg h]

lemma replCRCRtoCR_cons_ne13 (a : Nat) (t : List Nat) (h : a ≠ 13) :
    replCRCRtoCR (a :: t) = a :: replCRCRtoCR t := by
  cases t with
  | nil => rfl
  | cons b r => exact replCRCRtoCR_pair a b r (fun hc => h hc.1)

lemma replCRCRtoCR_13_ne13 (b : Nat) (r : List Nat) (h : b ≠ 13) :
    replCRCRtoCR (13 :: b :: r) = 13 :: replCRCRtoCR (b :: r) :=
  replCRCRtoCR_pair 13 b r (fun hc => h hc.2)

/-- A byte string has no two consecutive CR bytes. -/
def noCRCR : List Nat → Bool
  | [] => true
  | [_] => true
  | a :: b :: rest => (!(decide (a = 13) && decide (b = 13))) && noCRCR (b :: rest)

lemma noCRCR_nil : noCRCR [] = true := rfl

lemma noCRCR_single (c : Nat) : noCRCR [c] = true := rfl

lemma noCRCR_pair_iff (a b : Nat) (r : List Nat) :
    noCRCR (a :: b :: r) = true ↔ ¬(a = 13 ∧ b = 13) ∧ noCRCR (b :: r) = true := by
  simp [noCRCR]
  tauto

lemma noCRCR_tail (a : Nat) (t : List Nat) (h : noCRCR (a :: t) = true) : noCRCR t = true := by
  cases t with
  | nil => rfl
  | cons b r => exact ((noCRCR_pair_iff a b r).mp h).2

lemma noCRCR_cons_ne13 (a : Nat) (t : List Nat) (h : a ≠ 13) :
    noCRCR (a :: t) = noCRCR t := by
  cases t with
  | nil => rfl
  | cons b r =>
    simp [noCRCR, h]

lemma noCRCR_13_head (b : Nat) (r : List Nat) (h : noCRCR (13 :: b :: r) = true) : b ≠ 13 := by
  intro hb
  exact ((noCRCR_pair_iff 13 b r).mp h).1 ⟨rfl, hb⟩

/-- Every LF byte of the string is immediately preceded by a CR byte. -/
def noBareLF : List Nat → Bool
  | [] => true
  | [c] => decide (c ≠ 10)
  | a :: b :: rest =>
    if a = 10 then false
    else if a = 13 ∧ b = 10 then noBareLF rest
    else noBareLF (b :: rest)

lemma noBareLF_nil : noBareLF [] = true := rfl

lemma noBareLF_single (c : Nat) : noBareLF [c] = decide (c ≠ 10) := rfl

lemma noBareLF_cons10 (t : List Nat) : noBareLF (10 :: t) = false := by
  cases t with
  | nil => simp [noBareLF]
  | cons b r => simp [noBareLF]

lemma noBareLF_13_10 (t : List Nat) : noBareLF (13 :: 10 :: t) = noBareLF t := by
  simp [noBareLF]

lemma noBareLF_13_ne10 (b : Nat) (t : List Nat) (h : b ≠ 10) :
    noBareLF (13 :: b :: t) = noBareLF (b :: t) := by
  rw [noBareLF, if_neg (by decide : ¬(13 : Nat) = 10), if_neg (fun hc => h hc.2)]

lemma noBareLF_cons_other (a : Nat) (t : List Nat) (h10 : a ≠ 10) (h13 : a ≠ 13) :
    noBareLF (a :: t) = noBareLF t := by
  cases t with
  | nil => simp [noBareLF, h10]
  | cons b r =>
    rw [noBareLF, if_neg h10, if_neg (fun hc => h13 hc.1)]

/-- Every CR byte of the string is immediately followed by an LF byte. -/
def crAlwaysBeforeLF : List Nat → Bool
  | [] => true
  | [c] => decide (c ≠ 13)
  | a :: b :: rest =>
    if a = 13 then decide (b = 10) && crAlwaysBeforeLF rest
    else crAlwaysBeforeLF (b :: rest)

/-- Number of CR bytes not immediately followed by an LF byte (lone CRs),
counting a CR that is part of a non-overlapping left-to-right CRLF match as
not lone. -/
def countLoneCR : List Nat → Nat
  | [] => 0
  | [c] => if c = 13 then 1 else 0
  | a :: b :: rest =>
    if a = 13 then (if b = 10 then countLoneCR rest else 1 + countLoneCR (b :: rest))
    else countLoneCR (b :: rest)

lemma replCRLFtoLF_idem_aux (b : List Nat) :
    noCRCR b = true → replCRLFtoLF (replCRLFtoLF b) = replCRLFtoLF b := by
  induction b using twoStepInd with
  | h0 => intro _; rfl
  | h1 c => intro _; rfl
  | h2 a b r ihr ihbr =>
    intro h
    have hbr : noCRCR (b :: r) = true := noCRCR_tail a (b :: r) h
    by_cases hab : a = 13 ∧ b = 10
    · obtain ⟨ha, hb⟩ := hab
      subst ha; subst hb
      rw [replCRLFtoLF_crlf]
      rw [replCRLFtoLF_cons_ne13 10 _ (by decide)]
      rw [ihr (noCRCR_tail 10 r hbr)]
    · rw [replCRLFtoLF_pair a b r hab]
      by_cases ha : a = 13
      · subst ha
        have hb10 : b ≠ 10 := fun hb => hab ⟨rfl, hb⟩
        have hb13 : b ≠ 13 := noCRCR_13_head b r h
        have hfb : replCRLFtoLF (b :: r) = b :: replCRLFtoLF r :=
          replCRLFtoLF_cons_ne13 b r hb13
        rw [hfb, replCRLFtoLF_13_ne10 b _ hb10, ← hfb, ihbr hbr]
      · rw [replCRLFtoLF_cons_ne13 a _ ha, ihbr hbr]

/-- The composite transformation used for the crlf policy. -/
def crlfNormalize (b : List Nat) : List Nat := replCRCRtoCR (replLFtoCRLF b)

lemma crlfNormalize_nil : crlfNormalize [] = [] := rfl

lemma crlfNormalize_cons10 (t : List Nat) :
    crlfNormalize (10 :: t) = 13 :: 10 :: crlfNormalize t := by
  unfold crlfNormalize
  rw [replLFtoCRLF_lf]
  rw [replCRCRtoCR_13_ne13 10 _ (by decide)]
  rw [replCRCRtoCR_cons_ne13 10 _ (by decide)]

lemma crlfNormalize_13_10 (t : List Nat) :
    crlfNormalize (13 :: 10 :: t) = 13 :: 10 :: crlfNormalize t := by
  unfold crlfNormalize
  rw [replLFtoCRLF_cons_ne10 13 _ (by decide), replLFtoCRLF_lf]
  rw [replCRCRtoCR_crcr]
  rw [replCRCRtoCR_cons_ne13 10 _ (by decide)]

lemma crlfNormalize_cons_other (a : Nat) (t : List Nat) (h10 : a ≠ 10) (h13 : a ≠ 13) :
    crlfNormalize (a :: t) = a :: crlfNormalize t := by
  unfold crlfNormalize
  rw [replLFtoCRLF_cons_ne10 a _ h10]
  rw [replCRCRtoCR_cons_ne13 a _ h13]

lemma crlfNormalize_13_nil : crlfNormalize [13] = [13] := rfl

lemma crlfNormalize_13_other (b : Nat) (t : List Nat) (h10 : b ≠ 10) (h13 : b ≠ 13) :
    crlfNormalize (13 :: b :: t) = 13 :: crlfNormalize (b :: t) := by
  unfold crlfNormalize
  rw [replLFtoCRLF_cons_ne10 13 _ (by decide)]
  rw [replLFtoCRLF_cons_ne10 b _ h10]
  rw [replCRCRtoCR_13_ne13 b _ h13]

lemma crlfNormalize_good (b : List Nat) :
    noCRCR b = true →
      noCRCR (crlfNormalize b) = true ∧ noBareLF (crlfNormalize b) = true := by
  induction b using twoStepInd with
  | h0 => intro _; exact ⟨rfl, rfl⟩
  | h1 c =>
    intro _
    by_cases hc : c = 10
    · subst hc
      refine ⟨?_, ?_⟩ <;> decide
    · by_cases h13 : c = 13
      · subst h13
        rw [crlfNormalize_13_nil]
        exact ⟨by decide, by decide⟩
      · rw [crlfNormalize_cons_other c [] hc h13, crlfNormalize_nil]
        exact ⟨noCRCR_single c, by simp [noBareLF_single, hc]⟩
  | h2 a b r ihr ihbr =>
    intro h
    have hbr : noCRCR (b :: r) = true := noCRCR_tail a (b :: r) h
    by_cases ha10 : a = 10
    · subst ha10
      rw [crlfNormalize_cons10]
      obtain ⟨ih1, ih2⟩ := ihbr hbr
      constructor
      · rw [noCRCR_pair_iff]
        exact ⟨by decide, by rw [noCRCR_cons_ne13 10 _ (by decide)]; exact ih1⟩
      · rw [noBareLF_13_10]; exact ih2
    · by_cases ha13 : a = 13
      · subst ha13
        have hb13 : b ≠ 13 := noCRCR_13_head b r h
        by_cases hb10 : b = 10
        · subst hb10
          rw [crlfNormalize_13_10]
          obtain ⟨ih1, ih2⟩ := ihr (noCRCR_tail 10 r hbr)
          constructor
          · rw [noCRCR_pair_iff]
            exact ⟨by decide, by rw [noCRCR_cons_ne13 10 _ (by decide)]; exact ih1⟩
          · rw [noBareLF_13_10]; exact ih2
        · rw [crlfNormalize_13_other b r hb10 hb13]
          obtain ⟨ih1, ih2⟩ := ihbr hbr
          rw [crlfNormalize_cons_other b r hb10 hb13] at ih1 ih2 ⊢
          constructor
          · rw [noCRCR_pair_iff]
            exact ⟨fun hc => hb13 hc.2, ih1⟩
          · rw [noBareLF_13_ne10 b _ hb10]; exact ih2
      · rw [crlfNormalize_cons_other a (b :: r) ha10 ha13]
        obtain ⟨ih1, ih2⟩ := ihbr hbr
        constructor
        · rw [noCRCR_cons_ne13 a _ ha13]; exact ih1
        · rw [noBareLF_cons_other a _ ha10 ha13]; exact ih2

lemma crlfNormalize_fixed (b : List Nat) :
    noCRCR b = true → noBareLF b = true → crlfNormalize b = b := by
  induction b using twoStepInd with
  | h0 => intro _ _; rfl
  | h1 c =>
    intro _ hb
    have hc : c ≠ 10 := by simpa [noBareLF_single] using hb
    by_cases h13 : c = 13
    · subst h13
      exact crlfNormalize_13_nil
    · rw [crlfNormalize_cons_other c [] hc h13, crlfNormalize_nil]
  | h2 a b r ihr ihbr =>
    intro h hb
    have hbr : noCRCR (b :: r) = true := noCRCR_tail a (b :: r) h
    by_cases ha10 : a = 10
    · subst ha10
      rw [noBareLF_cons10] at hb
      exact absurd hb (by decide)
    · by_cases ha13 : a = 13
      · subst ha13
        have hb13 : b ≠ 13 := noCRCR_13_head b r h
        by_cases hb10 : b = 10
        · subst hb10
          rw [crlfNormalize_13_10]
          rw [noBareLF_13_10] at hb
          rw [ihr (noCRCR_tail 10 r hbr) hb]
        · rw [crlfNormalize_13_other b r hb10 hb13]
          rw [noBareLF_13_ne10 b _ hb10] at hb
          rw [ihbr hbr hb]
      · rw [crlfNormalize_cons_other a (b :: r) ha10 ha13]
        rw [noBareLF_cons_other a _ ha10 ha13] at hb
        rw [ihbr hbr hb]

lemma crlfNormalize_idem_aux (b : List Nat) (h : noCRCR b = true) :
    crlfNormalize (crlfNormalize b) = crlfNormalize b := by
  obtain ⟨h1, h2⟩ := crlfNormalize_good b h
  exact crlfNormalize_fixed (crlfNormalize b) h1 h2

lemma no13_noCRCR (b : List Nat) (h : 13 ∉ b) : noCRCR b = true := by
  induction b with
  | nil => rfl
  | cons a t ih =>
    have ha : a ≠ 13 := fun hc => h (hc ▸ List.mem_cons_self a t)
    rw [noCRCR_cons_ne13 a t ha]
    exact ih (fun hm => h (List.mem_cons_of_mem a hm))

lemma crlfNormalize_counts (b : List Nat) (h : 13 ∉ b) :
    (crlfNormalize b).count 10 = b.count 10 ∧ (crlfNormalize b).count 13 = b.count 10 := by
  induction b with
  | nil => exact ⟨rfl, rfl⟩
  | cons a t ih =>
    have ha13 : a ≠ 13 := fun hc => h (hc ▸ List.mem_cons_self a t)
    have ht : 13 ∉ t := fun hm => h (List.mem_cons_of_mem a hm)
    obtain ⟨ih1, ih2⟩ := ih ht
    by_cases ha10 : a = 10
    · subst ha10
      rw [crlfNormalize_cons10]
      constructor
      · simp [List.count_cons, ih1]
      · simp [List.count_cons, ih2]
    · rw [crlfNormalize_cons_other a t ha10 ha13]
      constructor
      · simp [List.count_cons, ih1, ha10, Ne.symm ha10]
      · simp [List.count_cons, ih2, ha10, ha13, Ne.symm ha10, Ne.symm ha13]

lemma replCRLFtoLF_counts (b : List Nat) :
    (replCRLFtoLF b).count 13 = countLoneCR b ∧ (replCRLFtoLF b).count 10 = b.count 10 := by
  induction b using twoStepInd with
  | h0 => exact ⟨rfl, rfl⟩
  | h1 c =>
    rw [replCRLFtoLF_single]
    constructor
    · by_cases hc : c = 13
      · subst hc; simp [countLoneCR, List.count_cons]
      · simp [countLoneCR, List.count_cons, hc, Ne.symm hc]
    · simp [List.count_cons]
  | h2 a b r ihr ihbr =>
    by_cases hab : a = 13 ∧ b = 10
    · obtain ⟨ha, hb⟩ := hab
      subst ha; subst hb
      rw [replCRLFtoLF_crlf]
      constructor
      · simp only [List.count_cons]
        rw [ihr.1]
        simp [countLoneCR]
      · simp only [List.count_cons]
        rw [ihr.2]
        simp [List.count_cons]
    · rw [replCRLFtoLF_pair a b r hab]
      by_cases ha : a = 13
      · subst ha
        have hb10 : b ≠ 10 := fun hb => hab ⟨rfl, hb⟩
        constructor
        · simp only [List.count_cons]
          rw [ihbr.1]
          simp [countLoneCR, hb10]
          omega
        · simp only [List.count_cons]
          rw [ihbr.2]
          simp [List.count_cons]
      · constructor
        · simp only [List.count_cons]
          rw [ihbr.1]
          simp [countLoneCR, ha, Ne.symm ha]
        · simp only [List.count_cons]
          rw [ihbr.2]
          simp [List.count_cons]

lemma crAlwaysBeforeLF_countLoneCR (b : List Nat) :
    crAlwaysBeforeLF b = true → countLoneCR b = 0 := by
  induction b using twoStepInd with
  | h0 => intro _; rfl
  | h1 c =>
    intro h
    have hc : c ≠ 13 := by simpa [crAlwaysBeforeLF] using h
    simp [countLoneCR, hc]
  | h2 a b r ihr ihbr =>
    intro h
    by_cases ha : a = 13
    · subst ha
      rw [crAlwaysBeforeLF] at h
      rw [if_pos rfl] at h
      obtain ⟨hb, hr⟩ := by simpa using h
      rw [countLoneCR, if_pos rfl, if_pos hb]
      exact ihr hr
    · rw [crAlwaysBeforeLF, if_neg ha] at h
      rw [countLoneCR, if_neg ha]
      exact ihbr h

/-- Claim C3, as stated, is false: line-ending normalization is not idempotent
for all byte strings.  For the lf policy the byte string CR CR LF normalizes
to CR LF and then to LF; for the crlf policy the byte string CR CR CR
normalizes to CR CR and then to CR. -/
theorem c3_counterexample :
    normalize (normalize [13, 13, 10] .lf) .lf ≠ normalize [13, 13, 10] .lf ∧
      normalize (normalize [13, 13, 13] .crlf) .crlf ≠ normalize [13, 13, 13] .crlf := by
  exact ⟨by decide, by decide⟩

/-- Claim C3 (amended): for every byte string with no two consecutive CR bytes,
normalization is idempotent for both the lf and the crlf policy. -/
theorem c3_normalize_idempotent (b : List Nat) (h : noCRCR b = true) :
    normalize (normalize b .lf) .lf = normalize b .lf ∧
      normalize (normalize b .crlf) .crlf = normalize b .crlf :=
  ⟨replCRLFtoLF_idem_aux b h, crlfNormalize_idem_aux b h⟩

theorem c3_witness :
    noCRCR [65, 13, 10, 10] = true ∧
      (normalize (normalize [65, 13, 10, 10] .lf) .lf = normalize [65, 13, 10, 10] .lf ∧
        normalize (normalize [65, 13, 10, 10] .crlf) .crlf = normalize [65, 13, 10, 10] .crlf) :=
  ⟨by decide, c3_normalize_idempotent [65, 13, 10, 10] (by decide)⟩

/-- Claim C4: for every byte string containing no CR byte, normalization with
the crlf policy yields a string in which every LF is immediately preceded by
exactly one CR (no bare LF and no doubled CR), and each LF terminator of the
input becomes exactly one CRLF (the counts of LF and of CR in the output both
equal the count of LF in the input). -/
theorem c4_crlf_no_bare_lf (b : List Nat) (h : 13 ∉ b) :
    noBareLF (normalize b .crlf) = true ∧ noCRCR (normalize b .crlf) = true ∧
      (normalize b .crlf).count 10 = b.count 10 ∧
      (normalize b .crlf).count 13 = b.count 10 := by
  have hn : noCRCR b = true := no13_noCRCR b h
  have hg := crlfNormalize_good b hn
  have hc := crlfNormalize_counts b h
  exact ⟨hg.2, hg.1, hc.1, hc.2⟩

theorem c4_witness :
    noBareLF (normalize [10, 65, 10] .crlf) = true ∧
      noCRCR (normalize [10, 65, 10] .crlf) = true ∧
      (normalize [10, 65, 10] .crlf).count 10 = List.count 10 [10, 65, 10] ∧
      (normalize [10, 65, 10] .crlf).count 13 = List.count 10 [10, 65, 10] :=
  c4_crlf_no_bare_lf [10, 65, 10] (by decide)

/-- Claim C5: normalization with the lf policy replaces every CRLF occurrence
with LF and leaves lone CR bytes untouched: the output has as many CR bytes as
the input has lone CRs and as many LF bytes as the input; in particular, when
every CR of the input is immediately followed by LF, the output contains no CR
byte at all. -/
theorem c5_lf_removes_crlf (b : List Nat) :
    ((normalize b .lf).count 13 = countLoneCR b ∧ (normalize b .lf).count 10 = b.count 10) ∧
      (crAlwaysBeforeLF b = true → 13 ∉ normalize b .lf) := by
  refine ⟨replCRLFtoLF_counts b, fun h => ?_⟩
  have h0 : (replCRLFtoLF b).count 13 = 0 := by
    rw [(replCRLFtoLF_counts b).1]
    exact crAlwaysBeforeLF_countLoneCR b h
  exact List.count_eq_zero.mp h0

theorem c5_witness :
    (((normalize [65, 13, 10] .lf).count 13 = countLoneCR [65, 13, 10] ∧
        (normalize [65, 13, 10] .lf).count 10 = List.count 10 [65, 13, 10])) ∧
      13 ∉ normalize [65, 13, 10] .lf :=
  ⟨(c5_lf_removes_crlf [65, 13, 10]).1, (c5_lf_removes_crlf [65, 13, 10]).2 (by decide)⟩

/-!
Model of the file sets and of the two command entry points.  A directory is a
list of entries, each with a name, a flag saying whether it is a regular file
(the result of `path.is_file()`), and its byte content.
-/

/-- One entry of a directory listing, as observed through `Path.iterdir`,
`path.is_file()`, `read_bytes` and `write_bytes`. -/
structure FsEntry where
  name : String
  isFile : Bool
  content : List Nat
deriving DecidableEq, Repr

/-- The error kinds raised by the synchronization commands (all raised as
`ValueError` in dotSync.py; the spec names them as distinct kinds). -/
inductive SyncError
  | locationNotConfigured
  | noFilesInRepo
  | fileNameNotFound (name : String)
  | missingLocalFiles (names : List String)
  | remoteDiverged (log : String)
deriving DecidableEq, Repr

/-- Per-file outcomes and version-control actions reported by a command run. -/
inductive Event
  | unchangedRepo (name : String)
  | wroteRepo (name : String)
  | unchangedLocal (name : String)
  | wroteLocal (name : String)
  | printedPullLog (log : String)
  | reportedUpToDate
  | committed (message : String)
  | commitSkipped (message : String)
  | pushed
deriving DecidableEq, Repr

/-- Embeds dotSync.py lines 199-200: the repository-side candidate files are
the directory entries other than `.git` that are regular files. -/
def storedDotFiles (repoEntries : List FsEntry) : List FsEntry :=
  repoEntries.filter (fun p => p.name ≠ ".git" && p.isFile)

/-- Embeds dotSync.py lines 203-210: an optional file-name filter narrows the
candidate names to exactly that name, failing when it is not stored. -/
def resolveToSync (fileName : Option String) (stored : List FsEntry) :
    Except SyncError (List String) :=
  match fileName with
  | some fn =>
    if (stored.map (fun p => p.name)).contains fn then .ok [fn]
    else .error (.fileNameNotFound fn)
  | none => .ok (stored.map (fun p => p.name))

/-- Set-equality of the two name lists, embedding the comparison of the two
dict key sets at dotSync.py line 217. -/
def sameNameSet (a b : List String) : Bool :=
  a.all (fun n => b.contains n) && b.all (fun n => a.contains n)

/-- The resolved file set: the names to synchronize together with the filtered
local and repository directory entries. -/
structure ResolvedSet where
  toSync : List String
  localFiles : List FsEntry
  repoFiles : List FsEntry
deriving DecidableEq, Repr

/-- Embeds `_prepare_for_sync` (dotSync.py lines 185-221).  Note that only the
repository side filters on `is_file` (line 200); the local side (lines
214-215) keeps every directory entry whose name is in the candidate set. -/
def prepareForSync (hasLocation : Bool) (fileName : Option String)
    (repoEntries localEntries : List FsEntry) : Except SyncError ResolvedSet :=
  if !hasLocation then .error .locationNotConfigured
  else
    let stored := storedDotFiles repoEntries
    if stored.isEmpty then .error .noFilesInRepo
    else
      match resolveToSync fileName stored with
      | .error e => .error e
      | .ok toSync =>
        let repoFiles := stored.filter (fun p => toSync.contains p.name)
        let localFiles := localEntries.filter (fun p => toSync.contains p.name)
        if !sameNameSet (localFiles.map (fun p => p.name)) (repoFiles.map (fun p => p.name)) then
          .error (.missingLocalFiles
            (toSync.filter (fun n => !(localFiles.map (fun p => p.name)).contains n)))
        else .ok ⟨toSync, localFiles, repoFiles⟩

/-- Reading a file of the given name from a directory listing (`read_bytes`). -/
def lookupFile (files : List FsEntry) (name : String) : List Nat :=
  match files.find? (fun p => p.name = name) with
  | some p => p.content
  | none => []

/-- Writing bytes to the file of the given name in a directory (`write_bytes`). -/
def writeFile (files : List FsEntry) (name : String) (content : List Nat) : List FsEntry :=
  files.map (fun p => if p.name = name then ⟨p.name, p.isFile, content⟩ else p)

/-- Embeds the repo-direction copy loop (dotSync.py lines 260-274): for each
name, normalize the local bytes, compare with the repository bytes, and
overwrite the repository file only when they differ.  Returns the per-file
events and the final repository directory state. -/
def syncRepoLoop (policy : LineEnding) (toSync : List String)
    (localFiles : List FsEntry) (repoState : List FsEntry) : List Event × List FsEntry :=
  match toSync with
  | [] => ([], repoState)
  | n :: rest =>
    let contentBytes := normalize (lookupFile localFiles n) policy
    if lookupFile repoState n = contentBytes then
      let res := syncRepoLoop policy rest localFiles repoState
      (Event.unchangedRepo n :: res.1, res.2)
    else
      let res := syncRepoLoop policy rest localFiles (writeFile repoState n contentBytes)
      (Event.wroteRepo n :: res.1, res.2)

/-- Embeds the local-direction copy loop (dotSync.py lines 301-309): for each
name, read the repository bytes verbatim, compare with the local bytes, and
overwrite the local file only when they differ. -/
def syncLocalLoop (toSync : List String)
    (repoFiles : List FsEntry) (localState : List FsEntry) : List Event × List FsEntry :=
  match toSync with
  | [] => ([], localState)
  | n :: rest =>
    let contentBytes := lookupFile repoFiles n
    if lookupFile localState n = contentBytes then
      let res := syncLocalLoop rest repoFiles localState
      (Event.unchangedLocal n :: res.1, res.2)
    else
      let res := syncLocalLoop rest repoFiles (writeFile localState n contentBytes)
      (Event.wroteLocal n :: res.1, res.2)

/-- Embeds `_pull_repo_changes_from_remote` (dotSync.py lines 224-227): the
change signal is true exactly when the output of the pull differs from the
literal string, and the output is returned unmodified. -/
def pullRepoChangesFromRemote (pullResult : String) : Bool × String :=
  (pullResult ≠ "Already up to date.", pullResult)

/-- Embeds `_commit_dot_file_changes` (dotSync.py lines 235-244), with the
list of modified tracked files (the split lines of `git ls_files --modified`)
supplied by the version-control client.  Returns whether a commit was made and
the reported message. -/
def commitDotFileChanges (modifiedList : List String) : Bool × String :=
  if modifiedList.isEmpty then (false, "No changes to commit")
  else
    (true, "[dotSync] Updating dot files: " ++
      String.intercalate ", "
        (modifiedList.map (fun p => "\x27" ++ ((p.splitOn "/").getLastD p) ++ "\x27")))

/-- Embeds `_command_main_repo` (dotSync.py lines 247-286).  `pullResult` is
the output the version-control client would give for `git pull`;
`modifiedOracle` gives the modified tracked file list that `git ls_files`
would report for a repository directory state.  Returns the error (if the run
raised), the events, and the final repository directory state. -/
def commandMainRepoRun (push : Bool) (pullResult : String) (hasLocation : Bool)
    (fileName : Option String) (policy : Option LineEnding)
    (repoEntries localEntries : List FsEntry)
    (modifiedOracle : List FsEntry → List String) :
    Option SyncError × List Event × List FsEntry :=
  match prepareForSync hasLocation fileName repoEntries localEntries with
  | .error e => (some e, [], repoEntries)
  | .ok rs =>
    if push && (pullRepoChangesFromRemote pullResult).1 then
      (some (.remoteDiverged (pullRepoChangesFromRemote pullResult).2), [], repoEntries)
    else
      let res := syncRepoLoop (policy.getD .noneP) rs.toSync rs.localFiles repoEntries
      if push then
        let commitRes := commitDotFileChanges (modifiedOracle res.2)
        if commitRes.1 then
          (none, res.1 ++ [Event.committed commitRes.2, Event.pushed], res.2)
        else
          (none, res.1 ++ [Event.commitSkipped commitRes.2], res.2)
      else (none, res.1, res.2)

/-- Embeds `_command_main_local` (dotSync.py lines 289-310).  The pull (when
requested) happens before the file set is resolved and only reports; it never
aborts the run.  Returns the error (if the run raised), the events, and the
final local directory state. -/
def commandMainLocalRun (pull : Bool) (pullResult : String) (hasLocation : Bool)
    (fileName : Option String) (repoEntries localEntries : List FsEntry) :
    Option SyncError × List Event × List FsEntry :=
  let pullEvents :=
    if pull then
      if (pullRepoChangesFromRemote pullResult).1 then
        [Event.printedPullLog (pullRepoChangesFromRemote pullResult).2]
      else [Event.reportedUpToDate]
    else []
  match prepareForSync hasLocation fileName repoEntries localEntries with
  | .error e => (some e, pullEvents, localEntries)
  | .ok rs =>
    let res := syncLocalLoop rs.toSync rs.repoFiles localEntries
    (none, pullEvents ++ res.1, res.2)

lemma syncRepoLoop_events (policy : LineEnding) (toSync : List String)
    (localFiles : List FsEntry) :
    ∀ repoState, ∀ e ∈ (syncRepoLoop policy toSync localFiles repoState).1,
      (∃ n, e = Event.unchangedRepo n) ∨ (∃ n, e = Event.wroteRepo n) := by
  induction toSync with
  | nil => intro repoState e he; simp [syncRepoLoop] at he
  | cons n rest ih =>
    intro repoState e he
    rw [syncRepoLoop] at he
    by_cases hc : lookupFile repoState n = normalize (lookupFile localFiles n) policy
    · rw [if_pos hc] at he
      rcases List.mem_cons.mp he with he1 | he1
      · exact Or.inl ⟨n, he1⟩
      · exact ih repoState e he1
    · rw [if_neg hc] at he
      rcases List.mem_cons.mp he with he1 | he1
      · exact Or.inr ⟨n, he1⟩
      · exact ih _ e he1

lemma syncLocalLoop_events (toSync : List String) (repoFiles : List FsEntry) :
    ∀ localState, ∀ e ∈ (syncLocalLoop toSync repoFiles localState).1,
      (∃ n, e = Event.unchangedLocal n) ∨ (∃ n, e = Event.wroteLocal n) := by
  induction toSync with
  | nil => intro localState e he; simp [syncLocalLoop] at he
  | cons n rest ih =>
    intro localState e he
    rw [syncLocalLoop] at he
    by_cases hc : lookupFile localState n = lookupFile repoFiles n
    · rw [if_pos hc] at he
      rcases List.mem_cons.mp he with he1 | he1
      · exact Or.inl ⟨n, he1⟩
      · exact ih localState e he1
    · rw [if_neg hc] at he
      rcases List.mem_cons.mp he with he1 | he1
      · exact Or.inr ⟨n, he1⟩
      · exact ih _ e he1

/-- Claim C1: when the local and repository directories hold byte-identical
content for every tracked name, the repo-direction sync with the none policy
and the local-direction sync report every file as unchanged and leave both
directory states untouched. -/
theorem c1_identical_content_no_writes (toSync : List String)
    (localDir repoDir : List FsEntry)
    (h : ∀ n ∈ toSync, lookupFile localDir n = lookupFile repoDir n) :
    syncRepoLoop .noneP toSync localDir repoDir = (toSync.map Event.unchangedRepo, repoDir) ∧
      syncLocalLoop toSync repoDir localDir = (toSync.map Event.unchangedLocal, localDir) := by
  induction toSync with
  | nil => exact ⟨rfl, rfl⟩
  | cons n rest ih =>
    have hn := h n (List.mem_cons_self n rest)
    obtain ⟨ih1, ih2⟩ := ih (fun m hm => h m (List.mem_cons_of_mem n hm))
    constructor
    · rw [syncRepoLoop]
      have hc : lookupFile repoDir n = normalize (lookupFile localDir n) LineEnding.noneP := by
        rw [hn]; rfl
      rw [if_pos hc, ih1]
      rfl
    · rw [syncLocalLoop]
      rw [if_pos hn, ih2]
      rfl

theorem c1_witness :
    syncRepoLoop .noneP ["a"] [⟨"a", true, [65]⟩] [⟨"a", true, [65]⟩]
        = (["a"].map Event.unchangedRepo, [⟨"a", true, [65]⟩]) ∧
      syncLocalLoop ["a"] [⟨"a", true, [65]⟩] [⟨"a", true, [65]⟩]
        = (["a"].map Event.unchangedLocal, [⟨"a", true, [65]⟩]) :=
  c1_identical_content_no_writes ["a"] [⟨"a", true, [65]⟩] [⟨"a", true, [65]⟩] (by decide)

/-- Claim C2: in a repo-direction sync with push requested, when the pre-sync
pull reports changed content (its output is not the up-to-date sentinel), the
run raises the remote-diverged error carrying the pull output, produces no
events, and leaves every repository file byte-for-byte unchanged. -/
theorem c2_remote_diverged_aborts (pullResult : String) (fileName : Option String)
    (policy : Option LineEnding) (repoEntries localEntries : List FsEntry)
    (modifiedOracle : List FsEntry → List String) (rs : ResolvedSet)
    (hprep : prepareForSync true fileName repoEntries localEntries = .ok rs)
    (hpull : pullResult ≠ "Already up to date.") :
    commandMainRepoRun true pullResult true fileName policy repoEntries localEntries
        modifiedOracle
      = (some (.remoteDiverged pullResult), [], repoEntries) := by
  unfold commandMainRepoRun
  rw [hprep]
  simp [pullRepoChangesFromRemote, hpull]

lemma resolveToSync_subset (fileName : Option String) (stored : List FsEntry)
    (toSync : List String) (h : resolveToSync fileName stored = .ok toSync) :
    ∀ n ∈ toSync, n ∈ stored.map (fun p => p.name) := by
  cases fileName with
  | none =>
    rw [resolveToSync] at h
    obtain rfl := Except.ok.inj h
    exact fun n hn => hn
  | some fn =>
    rw [resolveToSync] at h
    by_cases hc : (stored.map (fun p => p.name)).contains fn
    · rw [if_pos hc] at h
      obtain rfl := Except.ok.inj h
      intro n hn
      obtain rfl : n = fn := by simpa using hn
      simpa using hc
    · rw [if_neg hc] at h
      exact absurd h (by simp)

/-- Claim C6: when, after optional file-name filtering, at least one
repository-tracked name has no matching local entry, resolution fails with the
consistency error whose payload enumerates exactly the missing names, and both
command entry points abort with that error before writing any file on either
side. -/
theorem c6_missing_locals_abort (fileName : Option String) (repoE localE : List FsEntry)
    (toSync missing : List String) (push pullArg : Bool) (s : String)
    (policy : Option LineEnding) (oracle : List FsEntry → List String)
    (hstored : storedDotFiles repoE ≠ [])
    (hres : resolveToSync fileName (storedDotFiles repoE) = .ok toSync)
    (hm : toSync.filter
        (fun n => !((localE.filter (fun p => toSync.contains p.name)).map
          (fun p => p.name)).contains n) = missing)
    (hne : missing ≠ []) :
    prepareForSync true fileName repoE localE = .error (.missingLocalFiles missing) ∧
      (∀ n, n ∈ missing ↔ (n ∈ toSync ∧
        n ∉ (localE.filter (fun p => toSync.contains p.name)).map (fun p => p.name))) ∧
      commandMainRepoRun push s true fileName policy repoE localE oracle
        = (some (.missingLocalFiles missing), [], repoE) ∧
      (commandMainLocalRun pullArg s true fileName repoE localE).1
        = some (.missingLocalFiles missing) ∧
      (commandMainLocalRun pullArg s true fileName repoE localE).2.2 = localE ∧
      (∀ n, Event.wroteLocal n ∉ (commandMainLocalRun pullArg s true fileName repoE localE).2.1) := by
  have hempty : (storedDotFiles repoE).isEmpty = false := by
    cases hh : (storedDotFiles repoE).isEmpty
    · rfl
    · exact absurd (List.isEmpty_iff.mp hh) hstored
  obtain ⟨n0, hn0⟩ := List.exists_mem_of_ne_nil missing hne
  have hn0f := hm ▸ hn0
  rw [List.mem_filter] at hn0f
  obtain ⟨hn0sync, hn0loc⟩ := hn0f
  have hn0notloc :
      n0 ∉ (localE.filter (fun p => toSync.contains p.name)).map (fun p => p.name) := by
    simpa using hn0loc
  have hn0repo :
      n0 ∈ ((storedDotFiles repoE).filter (fun p => toSync.contains p.name)).map
        (fun p => p.name) := by
    have hn0stored := resolveToSync_subset fileName _ toSync hres n0 hn0sync
    rw [List.mem_map] at hn0stored
    obtain ⟨p, hp, hpn⟩ := hn0stored
    rw [List.mem_map]
    refine ⟨p, List.mem_filter.mpr ⟨hp, ?_⟩, hpn⟩
    rw [hpn]
    simpa using hn0sync
  have hsame : sameNameSet
      ((localE.filter (fun p => toSync.contains p.name)).map (fun p => p.name))
      (((storedDotFiles repoE).filter (fun p => toSync.contains p.name)).map
        (fun p => p.name)) = false := by
    rw [sameNameSet]
    have hball : (((storedDotFiles repoE).filter (fun p => toSync.contains p.name)).map
        (fun p => p.name)).all
          (fun n => ((localE.filter (fun p => toSync.contains p.name)).map
            (fun p => p.name)).contains n) = false := by
      by_cases hb : (((storedDotFiles repoE).filter (fun p => toSync.contains p.name)).map
          (fun p => p.name)).all
            (fun n => ((localE.filter (fun p => toSync.contains p.name)).map
              (fun p => p.name)).contains n) = true
      · exfalso
        have hmm := List.all_eq_true.mp hb n0 hn0repo
        simp only [List.elem_iff] at hmm
        exact hn0notloc hmm
      · exact Bool.eq_false_iff.mpr hb
    rw [hball, Bool.and_false]
  have hprep : prepareForSync true fileName repoE localE
      = .error (.missingLocalFiles missing) := by
    rw [prepareForSync]
    simp only [Bool.not_true, Bool.false_eq_true, if_false, hempty, hres, hsame, Bool.not_false,
      if_true, hm]
  refine ⟨hprep, ?_, ?_, ?_, ?_, ?_⟩
  · intro n
    rw [← hm, List.mem_filter]
    constructor
    · rintro ⟨h1, h2⟩
      exact ⟨h1, by simpa using h2⟩
    · rintro ⟨h1, h2⟩
      exact ⟨h1, by simpa using h2⟩
  · rw [commandMainRepoRun, hprep]
  · rw [commandMainLocalRun, hprep]
  · rw [commandMainLocalRun, hprep]
  · intro n
    rw [commandMainLocalRun, hprep]
    by_cases hp : pullArg
    · simp only [hp, if_true]
      split <;> simp
    · simp [hp]

theorem c6_witness :
    prepareForSync true Option.none [⟨"a", true, [65]⟩, ⟨"b", true, [66]⟩]
        [⟨"a", true, [65]⟩] = .error (.missingLocalFiles ["b"]) ∧
      (∀ n, n ∈ ["b"] ↔ (n ∈ ["a", "b"] ∧
        n ∉ ([⟨"a", true, [65]⟩].filter
          (fun p : FsEntry => (["a", "b"]).contains p.name)).map (fun p => p.name))) ∧
      commandMainRepoRun false "x" true Option.none Option.none
          [⟨"a", true, [65]⟩, ⟨"b", true, [66]⟩] [⟨"a", true, [65]⟩] (fun _ => [])
        = (some (.missingLocalFiles ["b"]), [], [⟨"a", true, [65]⟩, ⟨"b", true, [66]⟩]) ∧
      (commandMainLocalRun false "x" true Option.none
          [⟨"a", true, [65]⟩, ⟨"b", true, [66]⟩] [⟨"a", true, [65]⟩]).1
        = some (.missingLocalFiles ["b"]) ∧
      (commandMainLocalRun false "x" true Option.none
          [⟨"a", true, [65]⟩, ⟨"b", true, [66]⟩] [⟨"a", true, [65]⟩]).2.2
        = [⟨"a", true, [65]⟩] ∧
      (∀ n, Event.wroteLocal n ∉ (commandMainLocalRun false "x" true Option.none
          [⟨"a", true, [65]⟩, ⟨"b", true, [66]⟩] [⟨"a", true, [65]⟩]).2.1) :=
  c6_missing_locals_abort Option.none [⟨"a", true, [65]⟩, ⟨"b", true, [66]⟩]
    [⟨"a", true, [65]⟩] ["a", "b"] ["b"] false false "x" Option.none (fun _ => [])
    (by decide) (by rfl) (by rfl) (by decide)

/-- Claim C7, as stated, is false: the local side of the resolver does not
exclude non-regular entries.  With a regular repository file named a and a
local directory entry named a that is not a regular file, resolution
succeeds and the resolved set contains the non-regular local entry. -/
theorem c7_counterexample :
    prepareForSync true Option.none [⟨"a", true, [65]⟩] [⟨"a", false, []⟩]
        = .ok ⟨["a"], [⟨"a", false, []⟩], [⟨"a", true, [65]⟩]⟩ ∧
      ([(⟨"a", false, []⟩ : FsEntry)].all fun p => p.isFile) = false :=
  ⟨by rfl, by rfl⟩

/-- Claim C7 (amended): only repository-side candidate discovery excludes
directory entries and non-regular files (and the version-control metadata
entry): every repo-side entry of a successfully resolved set is a regular
file other than .git, while the local side keeps every directory entry whose
name is tracked, regardless of its kind. -/
theorem c7_repo_side_regular_only (hasLoc : Bool) (fileName : Option String)
    (repoE localE : List FsEntry) (rs : ResolvedSet)
    (h : prepareForSync hasLoc fileName repoE localE = .ok rs) :
    (∀ p ∈ rs.repoFiles, p.isFile = true ∧ p.name ≠ ".git") ∧
      rs.localFiles = localE.filter (fun p => rs.toSync.contains p.name) := by
  rw [prepareForSync] at h
  by_cases h1 : hasLoc
  · rw [if_neg (by simp [h1])] at h
    by_cases h2 : (storedDotFiles repoE).isEmpty
    · rw [if_pos h2] at h
      exact absurd h (by simp)
    · rw [if_neg h2] at h
      cases h3 : resolveToSync fileName (storedDotFiles repoE) with
      | error e =>
        rw [h3] at h
        exact absurd h (by simp)
      | ok toSync =>
        rw [h3] at h
        dsimp only at h
        by_cases h4 : (!sameNameSet
            ((localE.filter (fun p => toSync.contains p.name)).map (fun p => p.name))
            (((storedDotFiles repoE).filter (fun p => toSync.contains p.name)).map
              (fun p => p.name))) = true
        · rw [if_pos h4] at h
          exact absurd h (by simp)
        · rw [if_neg h4] at h
          obtain rfl := (Except.ok.inj h).symm
          constructor
          · intro p hp
            have hp2 := List.mem_filter.mp hp
            have hp3 := List.mem_filter.mp hp2.1
            have hp4 := hp3.2
            simp only [Bool.and_eq_true, decide_eq_true_iff] at hp4
            exact ⟨hp4.2, hp4.1⟩
          · rfl
  · rw [if_pos (by simp [h1])] at h
    exact absurd h (by simp)

theorem c7_witness :
    (∀ p ∈ (⟨["a"], [⟨"a", true, [66]⟩], [⟨"a", true, [65]⟩]⟩ : ResolvedSet).repoFiles,
      p.isFile = true ∧ p.name ≠ ".git") ∧
      (⟨["a"], [⟨"a", true, [66]⟩], [⟨"a", true, [65]⟩]⟩ : ResolvedSet).localFiles
        = [⟨"a", true, [66]⟩].filter
            (fun p : FsEntry => (["a"] : List String).contains p.name) :=
  c7_repo_side_regular_only true Option.none [⟨"a", true, [65]⟩] [⟨"a", true, [66]⟩]
    ⟨["a"], [⟨"a", true, [66]⟩], [⟨"a", true, [65]⟩]⟩ (by rfl)

theorem c2_witness :
    commandMainRepoRun true "Updating 3d2c8a1..f00ba42" true Option.none Option.none
        [⟨"a", true, [65]⟩] [⟨"a", true, [66]⟩] (fun _ => [])
      = (some (.remoteDiverged "Updating 3d2c8a1..f00ba42"), [], [⟨"a", true, [65]⟩]) :=
  c2_remote_diverged_aborts "Updating 3d2c8a1..f00ba42" Option.none Option.none
    [⟨"a", true, [65]⟩] [⟨"a", true, [66]⟩] (fun _ => [])
    ⟨["a"], [⟨"a", true, [66]⟩], [⟨"a", true, [65]⟩]⟩ (by rfl) (by decide)

/-- Claim C9: in a repo-direction sync with push requested that passes the
remote-divergence gate, when no tracked file is modified after the copy
phase the commit step performs no commit and reports the no-changes message
and no push happens; and a push event only ever occurs immediately after a
successful, non-empty commit event. -/
theorem c9_commit_gates_push (fileName : Option String) (policy : Option LineEnding)
    (repoEntries localEntries : List FsEntry) (modifiedOracle : List FsEntry → List String)
    (rs : ResolvedSet) (evs : List Event) (final : List FsEntry)
    (hprep : prepareForSync true fileName repoEntries localEntries = .ok rs)
    (hres : syncRepoLoop (policy.getD LineEnding.noneP) rs.toSync rs.localFiles repoEntries
      = (evs, final)) :
    (modifiedOracle final = [] →
        commandMainRepoRun true "Already up to date." true fileName policy repoEntries
            localEntries modifiedOracle
          = (none, evs ++ [Event.commitSkipped "No changes to commit"], final) ∧
        Event.pushed ∉ evs ++ [Event.commitSkipped "No changes to commit"] ∧
        (∀ m, Event.committed m ∉ evs ++ [Event.commitSkipped "No changes to commit"])) ∧
    (modifiedOracle final ≠ [] →
        commandMainRepoRun true "Already up to date." true fileName policy repoEntries
            localEntries modifiedOracle
          = (none, evs ++ [Event.committed (commitDotFileChanges (modifiedOracle final)).2,
              Event.pushed], final)) := by
  have hevents : ∀ e ∈ evs, (∃ n, e = Event.unchangedRepo n) ∨ (∃ n, e = Event.wroteRepo n) :=
    fun e he => syncRepoLoop_events (policy.getD LineEnding.noneP) rs.toSync rs.localFiles
      repoEntries e (by rw [hres]; exact he)
  constructor
  · intro hmod
    refine ⟨?_, ?_, ?_⟩
    · rw [commandMainRepoRun, hprep]
      dsimp only
      rw [if_neg (by decide)]
      rw [hres]
      dsimp only
      rw [if_pos rfl, hmod]
      rfl
    · intro hmem
      rcases List.mem_append.mp hmem with hh | hh
      · rcases hevents _ hh with ⟨n, hn⟩ | ⟨n, hn⟩ <;> exact Event.noConfusion hn
      · simp at hh
    · intro m hmem
      rcases List.mem_append.mp hmem with hh | hh
      · rcases hevents _ hh with ⟨n, hn⟩ | ⟨n, hn⟩ <;> exact Event.noConfusion hn
      · simp at hh
  · intro hmod
    rw [commandMainRepoRun, hprep]
    dsimp only
    rw [if_neg (by decide)]
    rw [hres]
    dsimp only
    rw [if_pos rfl]
    have hc : (commitDotFileChanges (modifiedOracle final)).1 = true := by
      rw [commitDotFileChanges]
      rw [if_neg (by simpa [List.isEmpty_iff] using hmod)]
    rw [if_pos hc]

theorem c9_witness :
    ((fun _ : List FsEntry => ([] : List String)) [⟨"a", true, [65]⟩] = [] →
        commandMainRepoRun true "Already up to date." true Option.none Option.none
            [⟨"a", true, [65]⟩] [⟨"a", true, [65]⟩] (fun _ => [])
          = (none, [Event.unchangedRepo "a"] ++ [Event.commitSkipped "No changes to commit"],
              [⟨"a", true, [65]⟩]) ∧
        Event.pushed ∉ [Event.unchangedRepo "a"] ++ [Event.commitSkipped "No changes to commit"] ∧
        (∀ m, Event.committed m ∉
          [Event.unchangedRepo "a"] ++ [Event.commitSkipped "No changes to commit"])) ∧
    ((fun _ : List FsEntry => ([] : List String)) [⟨"a", true, [65]⟩] ≠ [] →
        commandMainRepoRun true "Already up to date." true Option.none Option.none
            [⟨"a", true, [65]⟩] [⟨"a", true, [65]⟩] (fun _ => [])
          = (none, [Event.unchangedRepo "a"] ++
              [Event.committed (commitDotFileChanges ((fun _ : List FsEntry =>
                ([] : List String)) [⟨"a", true, [65]⟩])).2, Event.pushed],
              [⟨"a", true, [65]⟩])) :=
  c9_commit_gates_push Option.none Option.none [⟨"a", true, [65]⟩] [⟨"a", true, [65]⟩]
    (fun _ => []) ⟨["a"], [⟨"a", true, [65]⟩], [⟨"a", true, [65]⟩]⟩
    [Event.unchangedRepo "a"] [⟨"a", true, [65]⟩] (by rfl) (by rfl)

/-- Claim C10: the content-changed signal of a pull is true exactly when the
pull output differs from the literal string Already up to date., the output is
surfaced unmodified, and this same exact string comparison is what decides
both the remote-divergence abort of the repo-direction push and whether the
local-direction pull report prints the pull log. -/
theorem c10_pull_signal_is_string_compare (s : String) (fileName : Option String)
    (policy : Option LineEnding) (repoE localE : List FsEntry)
    (oracle : List FsEntry → List String) (rs : ResolvedSet)
    (hprep : prepareForSync true fileName repoE localE = .ok rs) :
    (pullRepoChangesFromRemote s).2 = s ∧
      ((pullRepoChangesFromRemote s).1 = true ↔ ¬(s = "Already up to date.")) ∧
      ((commandMainRepoRun true s true fileName policy repoE localE oracle).1
          = some (SyncError.remoteDiverged s) ↔ ¬(s = "Already up to date.")) ∧
      (Event.printedPullLog s ∈ (commandMainLocalRun true s true fileName repoE localE).2.1
          ↔ ¬(s = "Already up to date.")) := by
  refine ⟨rfl, by simp [pullRepoChangesFromRemote], ?_, ?_⟩
  · by_cases hs : s = "Already up to date."
    · subst hs
      have hnone : (commandMainRepoRun true "Already up to date." true fileName policy
          repoE localE oracle).1 = none := by
        rw [commandMainRepoRun, hprep]
        dsimp only
        rw [if_neg (by decide)]
        rw [if_pos rfl]
        split <;> rfl
      constructor
      · intro h
        rw [hnone] at h
        exact Option.noConfusion h
      · intro h
        exact absurd rfl h
    · constructor
      · intro _
        exact hs
      · intro _
        rw [commandMainRepoRun, hprep]
        dsimp only
        rw [if_pos (by simp [pullRepoChangesFromRemote, hs])]
        rfl
  · by_cases hs : s = "Already up to date."
    · subst hs
      constructor
      · intro h
        rw [commandMainLocalRun] at h
        dsimp only at h
        rw [hprep] at h
        dsimp only at h
        rw [if_pos rfl, if_neg (by decide)] at h
        rcases List.mem_append.mp h with hh | hh
        · simp at hh
        · rcases syncLocalLoop_events rs.toSync rs.repoFiles localE _ hh with ⟨n, hn⟩ | ⟨n, hn⟩ <;>
            exact Event.noConfusion hn
      · intro h
        exact absurd rfl h
    · constructor
      · intro _
        exact hs
      · intro _
        rw [commandMainLocalRun]
        dsimp only
        rw [hprep]
        dsimp only
        rw [if_pos rfl, if_pos (by simp [pullRepoChangesFromRemote, hs])]
        exact List.mem_append.mpr (Or.inl (by simp [pullRepoChangesFromRemote]))

theorem c10_witness :
    (pullRepoChangesFromRemote "Updating f00..baa").2 = "Updating f00..baa" ∧
      ((pullRepoChangesFromRemote "Updating f00..baa").1 = true ↔
        ¬("Updating f00..baa" = "Already up to date.")) ∧
      ((commandMainRepoRun true "Updating f00..baa" true Option.none Option.none
          [⟨"a", true, [65]⟩] [⟨"a", true, [66]⟩] (fun _ => [])).1
          = some (SyncError.remoteDiverged "Updating f00..baa") ↔
        ¬("Updating f00..baa" = "Already up to date.")) ∧
      (Event.printedPullLog "Updating f00..baa" ∈
          (commandMainLocalRun true "Updating f00..baa" true Option.none
            [⟨"a", true, [65]⟩] [⟨"a", true, [66]⟩]).2.1 ↔
        ¬("Updating f00..baa" = "Already up to date.")) :=
  c10_pull_signal_is_string_compare "Updating f00..baa" Option.none Option.none
    [⟨"a", true, [65]⟩] [⟨"a", true, [66]⟩] (fun _ => [])
    ⟨["a"], [⟨"a", true, [66]⟩], [⟨"a", true, [65]⟩]⟩ (by rfl)

/-!
Model of `_write_config` (dotSync.py lines 142-152).  Configuration values are
modelled as lists of characters; the multi-line check uses the semantics of
the Python `str.splitlines` method.
-/

/-- The characters Python `str.splitlines` treats as line boundaries. -/
def isLineBoundary (c : Char) : Bool :=
  c == Char.ofNat 10 || c == Char.ofNat 13 || c == Char.ofNat 11 || c == Char.ofNat 12 ||
    c == Char.ofNat 28 || c == Char.ofNat 29 || c == Char.ofNat 30 || c == Char.ofNat 133 ||
    c == Char.ofNat 8232 || c == Char.ofNat 8233

/-- Worker for `pySplitlines`: `acc` holds the reversed characters of the
current line. -/
def pySplitlinesGo : List Char → List Char → List (List Char)
  | [], acc => if acc.isEmpty then [] else [acc.reverse]
  | [a], acc => if isLineBoundary a then [acc.reverse] else [(a :: acc).reverse]
  | a :: b :: rest, acc =>
    if a == Char.ofNat 13 && b == Char.ofNat 10 then acc.reverse :: pySplitlinesGo rest []
    else if isLineBoundary a then acc.reverse :: pySplitlinesGo (b :: rest) []
    else pySplitlinesGo (b :: rest) (a :: acc)

/-- The semantics of Python `str.splitlines`: split at line boundaries, treat
CR LF as one boundary, and do not produce a final empty line for a trailing
terminator. -/
def pySplitlines (s : List Char) : List (List Char) := pySplitlinesGo s []

/-- Embeds `_write_config` (dotSync.py lines 142-152): raise when any value
splits into more than one line, otherwise serialize each entry as
key space equals space value and join the lines with LF, returning the
written file content. -/
def writeConfig (config : List (String × List Char)) : Except String (List Char) :=
  if config.any (fun kv => (pySplitlines kv.2).length > 1) then
    .error "Multi-line properties are not supported"
  else
    .ok (List.intercalate [Char.ofNat 10]
      (config.map (fun kv => kv.1.toList ++ [' ', '=', ' '] ++ kv.2)))

/-- Claim C8, as stated, is false: a configuration value consisting of a
character followed by a single trailing newline contains a newline, yet
`_write_config` accepts it and writes the file (Python `splitlines` counts
such a value as one line). -/
theorem c8_counterexample :
    writeConfig [("k", ['a', Char.ofNat 10])]
        = .ok ['k', ' ', '=', ' ', 'a', Char.ofNat 10] ∧
      Char.ofNat 10 ∈ ['a', Char.ofNat 10] := by
  exact ⟨by rfl, by decide⟩

/-- Claim C8 (amended): saving the configuration fails with the multi-line
error, writing nothing, exactly when some value splits into more than one
line under Python splitlines semantics (a line-boundary character that is not
just a single trailing terminator); otherwise the serialized file is
written. -/
theorem c8_multiline_value_rejected (config : List (String × List Char)) :
    writeConfig config = .error "Multi-line properties are not supported" ↔
      ∃ kv ∈ config, 1 < (pySplitlines kv.2).length := by
  rw [writeConfig]
  by_cases h : config.any (fun kv => (pySplitlines kv.2).length > 1)
  · rw [if_pos h]
    simp only [true_iff]
    obtain ⟨kv, hkv, hlen⟩ := List.any_eq_true.mp h
    exact ⟨kv, hkv, by simpa using hlen⟩
  · rw [if_neg h]
    constructor
    · intro hc
      exact Except.noConfusion hc
    · intro ⟨kv, hkv, hlen⟩
      exact absurd (List.any_eq_true.mpr ⟨kv, hkv, by simpa using hlen⟩) h

theorem c8_witness :
    writeConfig [("k", ['a', Char.ofNat 10, 'b'])]
        = .error "Multi-line properties are not supported" :=
  (c8_multiline_value_rejected [("k", ['a', Char.ofNat 10, 'b'])]).mpr
    ⟨("k", ['a', Char.ofNat 10, 'b']), by decide, by decide⟩

end DotSync
